import Mathlib

/- A shallow embedding of the goparsec parser-combinator library
   (src/parsec/parsec.go).  Bytes are modelled as natural numbers, the
   input buffer as a list of bytes, and every Go combinator as a pure
   function from the cursor state to a result paired with the updated
   state (the Go code mutates the state in place; here the updated state
   is returned).  The repetition combinators of the Go source are
   general-recursive; here they take an explicit fuel argument standing
   for the recursion depth, and fuel exhaustion is a distinguished error
   that the theorems below never rely on. -/

namespace Parsec

/-- Dynamically typed parse result values: the Go code returns results
through the empty interface; the values actually produced are nil,
single bytes, byte strings and ordered lists of values. -/
inductive Value where
  | vnil : Value
  | vbyte : Nat → Value
  | vstr : List Nat → Value
  | vlist : List Value → Value

/-- The cursor state (`ParseState` in parsec.go): the immutable source
buffer, the current byte offset and the current line number. -/
structure ParseState where
  source : List Nat
  pos : Nat
  line : Nat
  deriving DecidableEq

/-- A parse error (`ParseErr` in parsec.go): free-text reason plus the
line number captured at the moment of failure. -/
structure ParseErr where
  reason : String
  line : Nat
  deriving DecidableEq

/-- A parser combinator (`Parser` in parsec.go): takes the state and
returns either a value or an error, together with the updated state. -/
abbrev Parser := ParseState → Except ParseErr Value × ParseState

/-- Render one byte as a one-character string, for error messages. -/
def chr (c : Nat) : String := String.mk [Char.ofNat c]

/-- Render a byte list as a string, for error messages. -/
def bytesToString (s : List Nat) : String := String.mk (s.map fun c => Char.ofNat c)

/-- Wrap a string in single quotes, as the Go error messages do. -/
def quoted (s : String) : String := chr 39 ++ s ++ chr 39

/-- `(*ParseState).next` from parsec.go: if not at end of input and the
byte under the cursor satisfies the predicate, advance the position by
one (incrementing the line counter when the byte is a line feed, 10) and
return the byte with true; otherwise return the byte under the cursor
(or 0 at end of input) with false and an unchanged state. -/
def ParseState.next (st : ParseState) (pred : Nat → Bool) : Nat × Bool × ParseState :=
  if h : st.pos < st.source.length then
    let c := st.source.get ⟨st.pos, h⟩
    if pred c = false then
      (c, false, st)
    else
      (c, true, { st with pos := st.pos + 1,
                          line := if c = 10 then st.line + 1 else st.line })
  else
    (0, false, st)

/-- `(*ParseState).trap` from parsec.go: build an error carrying the
current line number. -/
def ParseState.trap (st : ParseState) (reason : String) : ParseErr :=
  { reason := reason, line := st.line }

/-- `Bind` from parsec.go: run `p`; on failure propagate the failure, on
success with value `x` continue with `f x` on the advanced state. -/
def Bind (p : Parser) (f : Value → Parser) : Parser := fun st =>
  match p st with
  | (Except.error e, st1) => (Except.error e, st1)
  | (Except.ok x, st1) => f x st1

/-- `Bind_` from parsec.go: sequence two parsers, discarding the first
value; same failure propagation as `Bind`. -/
def Bind_ (p1 p2 : Parser) : Parser := fun st =>
  match p1 st with
  | (Except.error e, st1) => (Except.error e, st1)
  | (Except.ok _, st1) => p2 st1

/-- `Return` from parsec.go: always succeed with `x`, consuming nothing. -/
def Return (x : Value) : Parser := fun st => (Except.ok x, st)

/-- `Fail` from parsec.go: always fail with the message and the current
line. -/
def Fail (msg : String) : Parser := fun st => (Except.error (st.trap msg), st)

/-- `Either` from parsec.go: run `p1`; on success return its result; on
failure, run `p2` only if the position is unchanged, otherwise propagate
the failure of `p1`. -/
def Either (p1 p2 : Parser) : Parser := fun st =>
  match p1 st with
  | (Except.ok x, st1) => (Except.ok x, st1)
  | (Except.error e, st1) =>
      if st1.pos = st.pos then p2 st1 else (Except.error e, st1)

/-- `Try` from parsec.go: run `p`; on success return its result
unchanged; on failure reset the position to its value before the call
and propagate the failure. -/
def Try (p : Parser) : Parser := fun st =>
  match p st with
  | (Except.ok x, st1) => (Except.ok x, st1)
  | (Except.error e, st1) => (Except.error e, { st1 with pos := st.pos })

/-- `AnyChar` from parsec.go: consume any one byte; fail at end of
input. -/
def AnyChar : Parser := fun st =>
  let r := st.next fun _ => true
  if r.2.1 then
    (Except.ok (Value.vbyte r.1), r.2.2)
  else
    (Except.error (r.2.2.trap "Unexpected end of file"), r.2.2)

/-- `Eof` from parsec.go: calls `next` with an always-true predicate, so
away from end of input it consumes the byte under the cursor and then
fails; at end of input it succeeds with nil. -/
def Eof : Parser := fun st =>
  let r := st.next fun _ => true
  if r.2.1 then
    (Except.error (r.2.2.trap ("Expected end of file but got " ++ quoted (chr r.1))), r.2.2)
  else
    (Except.ok Value.vnil, r.2.2)

/-- `Char` from parsec.go: consume exactly the byte `c`, else fail
reporting the expected character. -/
def Char (c : Nat) : Parser := fun st =>
  let r := st.next fun b => b == c
  if r.2.1 then
    (Except.ok (Value.vbyte r.1), r.2.2)
  else
    (Except.error (r.2.2.trap ("Expected " ++ quoted (chr c))), r.2.2)

/-- `OneOf` from parsec.go: consume one byte belonging to the set, else
fail reporting the set and the offending byte. -/
def OneOf (set : List Nat) : Parser := fun st =>
  let r := st.next fun c => set.contains c
  if r.2.1 then
    (Except.ok (Value.vbyte r.1), r.2.2)
  else
    (Except.error (r.2.2.trap
      ("Expected one of " ++ quoted (bytesToString set) ++ " but got " ++ quoted (chr r.1))),
     r.2.2)

/-- `NoneOf` from parsec.go: consume one byte not belonging to the set,
else fail reporting the offending byte. -/
def NoneOf (set : List Nat) : Parser := fun st =>
  let r := st.next fun c => !(set.contains c)
  if r.2.1 then
    (Except.ok (Value.vbyte r.1), r.2.2)
  else
    (Except.error (r.2.2.trap ("Unexpected " ++ quoted (chr r.1))), r.2.2)

/-- The byte-matching loop inside `String` from parsec.go: match the
bytes of `s` one by one through `next`; return whether the whole string
matched together with the state reached. -/
def stringLoop : List Nat → ParseState → Bool × ParseState
  | [], st => (true, st)
  | c :: cs, st =>
      let r := st.next fun b => b == c
      if r.2.1 then stringLoop cs r.2.2 else (false, r.2.2)

/-- `String` from parsec.go: match `s` byte by byte via repeated `next`;
on the first mismatch restore the position to where it started and fail
reporting the expected string (the line counter keeps whatever value the
partial match advanced it to); on full match return `s`. -/
def String (s : List Nat) : Parser := fun st =>
  let r := stringLoop s st
  if r.1 then
    (Except.ok (Value.vstr s), r.2)
  else
    let st2 : ParseState := { r.2 with pos := st.pos }
    (Except.error (st2.trap ("Expected " ++ quoted (bytesToString s))), st2)

/-- `Option` from parsec.go: `Either p (Return x)`. -/
def Option (x : Value) (p : Parser) : Parser := Either p (Return x)

/-- The list-prepending step shared by the repetition combinators: the
Go code appends `x` in front of the asserted list `xs`; the fallback
branch is unreachable because the repetition combinators always produce
list values. -/
def consV (x : Value) (xs : Value) : Value :=
  match xs with
  | Value.vlist l => Value.vlist (x :: l)
  | _ => Value.vlist [x]

/-- `Many` from parsec.go, with fuel standing for the recursion depth:
`Option([], Many1(p))` where `Many1(p) = Bind(p, fun x => Bind(Many(p),
fun xs => Return (x :: xs)))`.  Fuel exhaustion yields a distinguished
error never relied upon by the theorems below. -/
def ManyF : Nat → Parser → Parser
  | 0, _ => fun st => (Except.error (st.trap "out of fuel"), st)
  | n + 1, p =>
      Option (Value.vlist [])
        (Bind p fun x => Bind (ManyF n p) fun xs => Return (consV x xs))

/-- `Many1` from parsec.go, with fuel passed to the inner `Many`:
`Bind(p, fun x => Bind(Many(p), fun xs => Return (x :: xs)))`. -/
def Many1F (n : Nat) (p : Parser) : Parser :=
  Bind p fun x => Bind (ManyF n p) fun xs => Return (consV x xs)

/-- `Maybe` from parsec.go: `Option(nil, Bind_(p, Return nil))`. -/
def Maybe (p : Parser) : Parser := Option Value.vnil (Bind_ p (Return Value.vnil))

/-- `Skip` from parsec.go: `Maybe(Many(p))`, with fuel for the inner
`Many`. -/
def SkipF (n : Nat) (p : Parser) : Parser := Maybe (ManyF n p)

/-- `Between` from parsec.go: `Bind_(start, Bind(p, fun x => Bind_(fin,
Return x)))`. -/
def Between (start fin p : Parser) : Parser :=
  Bind_ start (Bind p fun x => Bind_ fin (Return x))

/-- `SepBy1` from parsec.go, with fuel for the inner `Many`: `Bind(p,
fun x => Bind(Many(Bind_(sep, p)), fun xs => Return (x :: xs)))`. -/
def SepBy1F (n : Nat) (p sep : Parser) : Parser :=
  Bind p fun x => Bind (ManyF n (Bind_ sep p)) fun xs => Return (consV x xs)

/-- `SepBy` from parsec.go: `Option([], SepBy1(p, sep))`. -/
def SepByF (n : Nat) (p sep : Parser) : Parser :=
  Option (Value.vlist []) (SepBy1F n p sep)

/-- `ManyTil` from parsec.go, with fuel standing for the recursion
depth: `Either(Bind_(Try(fin), Return []), Bind(p, fun x =>
Bind(ManyTil(p, fin), fun xs => Return (x :: xs))))`. -/
def ManyTilF : Nat → Parser → Parser → Parser
  | 0, _, _ => fun st => (Except.error (st.trap "out of fuel"), st)
  | n + 1, p, fin =>
      Either (Bind_ (Try fin) (Return (Value.vlist [])))
        (Bind p fun x => Bind (ManyTilF n p fin) fun xs => Return (consV x xs))

/-- `Parse` from parsec.go: run a combinator against a fresh state with
position 0 and line 1. -/
def Parse (source : List Nat) (p : Parser) : Except ParseErr Value :=
  (p { source := source, pos := 0, line := 1 }).1

/-- `Digit` from parsec.go: `OneOf("0123456789")`. -/
def Digit : Parser := OneOf [48, 49, 50, 51, 52, 53, 54, 55, 56, 57]

/-- The interleaving shape of the tail of a successful separated list:
from a given state, zero or more rounds of one successful `sep` followed
by one successful `p`, ending in the state of the last successful `p`
(or the start state when there are no rounds).  A derivation for a list
of length m contains exactly m separator successes, each strictly
between two consecutive elements. -/
inductive SepTail (p sep : Parser) : ParseState → List Value → ParseState → Prop where
  | nil (st : ParseState) : SepTail p sep st [] st
  | cons (st st1 st2 st3 : ParseState) (v x : Value) (xs : List Value) :
      sep st = (Except.ok v, st1) → p st1 = (Except.ok x, st2) →
      SepTail p sep st2 xs st3 → SepTail p sep st (x :: xs) st3

/-! Small run lemmas: how each combinator evaluates once the outcome of
its first argument is known.  These are shared by the proofs below. -/

theorem Bind_run_ok {p : Parser} {f : Value → Parser} {st st1 : ParseState} {x : Value}
    (h : p st = (Except.ok x, st1)) : Bind p f st = f x st1 := by
  unfold Bind
  rw [h]

theorem Bind_run_err {p : Parser} {f : Value → Parser} {st st1 : ParseState} {e : ParseErr}
    (h : p st = (Except.error e, st1)) : Bind p f st = (Except.error e, st1) := by
  unfold Bind
  rw [h]

theorem bindSeq_run_ok {p1 p2 : Parser} {st st1 : ParseState} {x : Value}
    (h : p1 st = (Except.ok x, st1)) : Bind_ p1 p2 st = p2 st1 := by
  unfold Bind_
  rw [h]

theorem bindSeq_run_err {p1 p2 : Parser} {st st1 : ParseState} {e : ParseErr}
    (h : p1 st = (Except.error e, st1)) : Bind_ p1 p2 st = (Except.error e, st1) := by
  unfold Bind_
  rw [h]

theorem Either_run_ok {p1 p2 : Parser} {st st1 : ParseState} {x : Value}
    (h : p1 st = (Except.ok x, st1)) : Either p1 p2 st = (Except.ok x, st1) := by
  unfold Either
  rw [h]

theorem Either_run_err_stay {p1 p2 : Parser} {st st1 : ParseState} {e : ParseErr}
    (h : p1 st = (Except.error e, st1)) (hpos : st1.pos = st.pos) :
    Either p1 p2 st = p2 st1 := by
  unfold Either
  rw [h]
  simp [hpos]

theorem Either_run_err_move {p1 p2 : Parser} {st st1 : ParseState} {e : ParseErr}
    (h : p1 st = (Except.error e, st1)) (hpos : st1.pos ≠ st.pos) :
    Either p1 p2 st = (Except.error e, st1) := by
  unfold Either
  rw [h]
  simp [hpos]

theorem Try_run_ok {p : Parser} {st st1 : ParseState} {x : Value}
    (h : p st = (Except.ok x, st1)) : Try p st = (Except.ok x, st1) := by
  unfold Try
  rw [h]

theorem Try_run_err {p : Parser} {st st1 : ParseState} {e : ParseErr}
    (h : p st = (Except.error e, st1)) :
    Try p st = (Except.error e, { st1 with pos := st.pos }) := by
  unfold Try
  rw [h]

/-- C1: for all parsers `p1`, `p2` and every parse state, if `p1`
succeeds then `Either(p1, p2)` returns `p1`'s result; if `p1` fails with
the position unchanged then `Either(p1, p2)` returns exactly the result
of running `p2` from the state `p1` left (whose position equals the
original); if `p1` fails with the position advanced by at least one byte
then `Either(p1, p2)` returns `p1`'s failure verbatim, independently of
`p2`, leaving the cursor where `p1` left it. -/
theorem either_boundary (p1 p2 : Parser) (st : ParseState) :
    (∀ x, (p1 st).1 = Except.ok x → Either p1 p2 st = p1 st) ∧
    (∀ e, (p1 st).1 = Except.error e → (p1 st).2.pos = st.pos →
      Either p1 p2 st = p2 (p1 st).2) ∧
    (∀ e, (p1 st).1 = Except.error e → st.pos + 1 ≤ (p1 st).2.pos →
      Either p1 p2 st = p1 st) := by
  rcases hps : p1 st with ⟨r, st1⟩
  cases r with
  | ok x0 =>
    refine ⟨fun x hx => Either_run_ok hps, fun e he hp => absurd he (by simp),
      fun e he hp => absurd he (by simp)⟩
  | error e0 =>
    refine ⟨fun x hx => absurd hx (by simp), fun e he hp => ?_, fun e he hp => ?_⟩
    · exact Either_run_err_stay hps hp
    · have hne : st1.pos ≠ st.pos := by
        simp only at hp
        omega
      exact Either_run_err_move hps hne

/-- Witness for C1 at concrete inputs: a success of the left branch, a
zero-consumption failure of the left branch, and a consuming failure of
the left branch. -/
theorem either_boundary_w :
    Either (Char 97) (Char 98) ⟨[97], 0, 1⟩ = Char 97 ⟨[97], 0, 1⟩ ∧
    Either (Char 97) (Char 98) ⟨[98], 0, 1⟩ = Char 98 (Char 97 ⟨[98], 0, 1⟩).2 ∧
    Either (Bind_ AnyChar (Fail "boom")) (Char 98) ⟨[97], 0, 1⟩ =
      Bind_ AnyChar (Fail "boom") ⟨[97], 0, 1⟩ :=
  ⟨(either_boundary (Char 97) (Char 98) ⟨[97], 0, 1⟩).1 (Value.vbyte 97) rfl,
   (either_boundary (Char 97) (Char 98) ⟨[98], 0, 1⟩).2.1
     ⟨"Expected " ++ quoted (chr 97), 1⟩ rfl rfl,
   (either_boundary (Bind_ AnyChar (Fail "boom")) (Char 98) ⟨[97], 0, 1⟩).2.2
     ⟨"boom", 1⟩ rfl (by decide)⟩

/-- C2: for every parser `p` and every state, if `p` fails then `Try(p)`
propagates the failure and returns the state `p` left with only the
position restored to its pre-call value; if `p` succeeds then `Try(p)`
returns exactly what `p` returns. -/
theorem try_atomic (p : Parser) (st : ParseState) :
    (∀ x, (p st).1 = Except.ok x → Try p st = p st) ∧
    (∀ e, (p st).1 = Except.error e →
      Try p st = (Except.error e, { (p st).2 with pos := st.pos })) := by
  rcases hps : p st with ⟨r, st1⟩
  cases r with
  | ok x0 =>
    refine ⟨fun x hx => Try_run_ok hps, fun e he => absurd he (by simp)⟩
  | error e0 =>
    refine ⟨fun x hx => absurd hx (by simp), fun e he => ?_⟩
    have he0 : e0 = e := by simpa using he
    subst he0
    exact Try_run_err hps

/-- Witness for C2 at concrete inputs: a success and a consuming
failure. -/
theorem try_atomic_w :
    Try (Char 97) ⟨[97], 0, 1⟩ = Char 97 ⟨[97], 0, 1⟩ ∧
    Try (Bind_ AnyChar (Fail "boom")) ⟨[97], 0, 1⟩ =
      (Except.error ⟨"boom", 1⟩,
       { (Bind_ AnyChar (Fail "boom") ⟨[97], 0, 1⟩).2 with pos := 0 }) :=
  ⟨(try_atomic (Char 97) ⟨[97], 0, 1⟩).1 (Value.vbyte 97) rfl,
   (try_atomic (Bind_ AnyChar (Fail "boom")) ⟨[97], 0, 1⟩).2 ⟨"boom", 1⟩ rfl⟩

/-- C7: when `Try(p)` rolls back after a failure only the position field
is restored (the resulting state is the state `p` left with position
overwritten, so its line counter is whatever `p` advanced it to); in
particular, a `Try` whose argument consumes a line feed before failing
leaves line 2 with position restored to 0, and a `String` that consumes
a line feed before its mid-string mismatch fails with position restored
to 0 but line 2. -/
theorem rollback_line (p : Parser) (st : ParseState) :
    (∀ e, (p st).1 = Except.error e →
      Try p st = (Except.error e, { (p st).2 with pos := st.pos })) ∧
    Try (Bind_ (Char 10) (Fail "boom")) ⟨[10], 0, 1⟩ =
      (Except.error ⟨"boom", 2⟩, ⟨[10], 0, 2⟩) ∧
    Parsec.String [10, 97] ⟨[10, 98], 0, 1⟩ =
      (Except.error ⟨"Expected " ++ quoted (bytesToString [10, 97]), 2⟩, ⟨[10, 98], 0, 2⟩) := by
  refine ⟨fun e he => ?_, rfl, rfl⟩
  rcases hps : p st with ⟨r, st1⟩
  cases r with
  | ok x0 =>
    rw [hps] at he
    exact absurd he (by simp)
  | error e0 =>
    rw [hps] at he
    have he0 : e0 = e := by simpa using he
    subst he0
    exact Try_run_err hps

/-- Witness for C7: the general rollback equation applied to a parser
that consumes a line feed and then fails. -/
theorem rollback_line_w :
    Try (Bind_ (Char 10) (Fail "boom")) ⟨[10], 0, 1⟩ =
      (Except.error ⟨"boom", 2⟩,
       { (Bind_ (Char 10) (Fail "boom") ⟨[10], 0, 1⟩).2 with pos := 0 }) :=
  (rollback_line (Bind_ (Char 10) (Fail "boom")) ⟨[10], 0, 1⟩).1 ⟨"boom", 2⟩ rfl

/-- C3 is refuted as stated: `Many(p)` is not failure-free for every
`p`.  When `p` consumes a byte and then fails, `Many1(p)` fails with the
position advanced, so the `Either` inside `Many` propagates the failure
instead of recovering: here `Many(AnyChar >> Fail)` on input "a" returns
the error rather than an empty sequence. -/
theorem many_can_fail_cex :
    (ManyF 5 (Bind_ AnyChar (Fail "boom")) ⟨[97], 0, 1⟩).1 =
      Except.error ⟨"boom", 1⟩ := rfl

/-- C3 (amended): if `p` fails without consuming input (its failure
leaves the position unchanged) then `Many(p)` succeeds with the empty
sequence, from the state that failed attempt left; the fuel argument
only bounds the recursion depth and one unit suffices here. -/
theorem many_fail_no_consume (n : Nat) (p : Parser) (st : ParseState) (e : ParseErr)
    (hfail : (p st).1 = Except.error e) (hpos : (p st).2.pos = st.pos) :
    ManyF (n + 1) p st = (Except.ok (Value.vlist []), (p st).2) := by
  rcases hps : p st with ⟨r, st1⟩
  rw [hps] at hfail hpos
  cases r with
  | ok x0 => exact absurd hfail (by simp)
  | error e0 =>
    have h1 : Bind p (fun x => Bind (ManyF n p) fun xs => Return (consV x xs)) st
        = (Except.error e0, st1) := Bind_run_err hps
    show Either (Bind p fun x => Bind (ManyF n p) fun xs => Return (consV x xs))
        (Return (Value.vlist [])) st = _
    rw [Either_run_err_stay h1 hpos]
    rfl

/-- Witness for the amended C3: `Char 98` fails on "a" without
consuming, and `Many` yields the empty sequence there. -/
theorem many_fail_no_consume_w :
    ManyF 3 (Char 98) ⟨[97], 0, 1⟩ =
      (Except.ok (Value.vlist []), (Char 98 ⟨[97], 0, 1⟩).2) :=
  many_fail_no_consume 2 (Char 98) ⟨[97], 0, 1⟩
    ⟨"Expected " ++ quoted (chr 98), 1⟩ rfl rfl

/-- C4 is refuted as stated: `Many1(p)` failing is not equivalent to the
first application of `p` failing.  With `p = Char 97 >> Char 98` on
input "abac", the first application of `p` succeeds (returning the byte
98), yet `Many1(p)` fails, because the second application of `p`
consumes one byte before failing and the inner `Many` propagates that
consuming failure. -/
theorem many1_not_iff_cex :
    (Bind_ (Char 97) (Char 98) ⟨[97, 98, 97, 99], 0, 1⟩).1 = Except.ok (Value.vbyte 98) ∧
    (Many1F 5 (Bind_ (Char 97) (Char 98)) ⟨[97, 98, 97, 99], 0, 1⟩).1 =
      Except.error ⟨"Expected " ++ quoted (chr 98), 1⟩ := ⟨rfl, rfl⟩

/-- C4 (amended): if the first application of `p` fails then `Many1(p)`
fails with `p`'s error, and the state is exactly the one `p` left
(whatever `p` consumed before failing remains consumed).  The converse
does not hold (see the counterexample): `Many1(p)` can also fail when a
later application of `p` fails after consuming input. -/
theorem many1_first_fail (n : Nat) (p : Parser) (st : ParseState) (e : ParseErr)
    (hfail : (p st).1 = Except.error e) :
    Many1F n p st = (Except.error e, (p st).2) := by
  rcases hps : p st with ⟨r, st1⟩
  rw [hps] at hfail
  cases r with
  | ok x0 => exact absurd hfail (by simp)
  | error e0 =>
    have he0 : e0 = e := by simpa using hfail
    subst he0
    exact Bind_run_err hps

/-- Witness for the amended C4 at a concrete input. -/
theorem many1_first_fail_w :
    Many1F 3 (Char 98) ⟨[97], 0, 1⟩ =
      (Except.error ⟨"Expected " ++ quoted (chr 98), 1⟩, (Char 98 ⟨[97], 0, 1⟩).2) :=
  many1_first_fail 3 (Char 98) ⟨[97], 0, 1⟩ ⟨"Expected " ++ quoted (chr 98), 1⟩ rfl

/-- C5 is refuted as stated: `Maybe(p)` does not always succeed.  With
`p = Char 97 >> Char 98` on input "ac", `p` consumes one byte and then
fails, so the `Either` inside `Maybe` propagates the failure. -/
theorem maybe_can_fail_cex :
    (Maybe (Bind_ (Char 97) (Char 98)) ⟨[97, 99], 0, 1⟩).1 =
      Except.error ⟨"Expected " ++ quoted (chr 98), 1⟩ := rfl

/-- C5 (amended): `Maybe(p)` succeeds with no value (nil) whenever `p`
succeeds (consuming whatever `p` consumed) and whenever `p` fails
without consuming input (position unchanged); it fails only when `p`
fails after consuming input (see the counterexample). -/
theorem maybe_succeeds (p : Parser) (st : ParseState) :
    (∀ x, (p st).1 = Except.ok x → Maybe p st = (Except.ok Value.vnil, (p st).2)) ∧
    (∀ e, (p st).1 = Except.error e → (p st).2.pos = st.pos →
      Maybe p st = (Except.ok Value.vnil, (p st).2)) := by
  rcases hps : p st with ⟨r, st1⟩
  cases r with
  | ok x0 =>
    refine ⟨fun x hx => ?_, fun e he hp => absurd he (by simp)⟩
    show Either (Bind_ p (Return Value.vnil)) (Return Value.vnil) st = _
    have h1 : Bind_ p (Return Value.vnil) st = (Except.ok Value.vnil, st1) := by
      rw [bindSeq_run_ok hps]
      rfl
    rw [Either_run_ok h1]
  | error e0 =>
    refine ⟨fun x hx => absurd hx (by simp), fun e he hp => ?_⟩
    show Either (Bind_ p (Return Value.vnil)) (Return Value.vnil) st = _
    have h1 : Bind_ p (Return Value.vnil) st = (Except.error e0, st1) :=
      bindSeq_run_err hps
    rw [Either_run_err_stay h1 hp]
    rfl

/-- Witness for the amended C5: a matching and a non-matching (but
non-consuming) argument parser. -/
theorem maybe_succeeds_w :
    Maybe (Char 97) ⟨[97], 0, 1⟩ = (Except.ok Value.vnil, (Char 97 ⟨[97], 0, 1⟩).2) ∧
    Maybe (Char 98) ⟨[97], 0, 1⟩ = (Except.ok Value.vnil, (Char 98 ⟨[97], 0, 1⟩).2) :=
  ⟨(maybe_succeeds (Char 97) ⟨[97], 0, 1⟩).1 (Value.vbyte 97) rfl,
   (maybe_succeeds (Char 98) ⟨[97], 0, 1⟩).2 ⟨"Expected " ++ quoted (chr 98), 1⟩ rfl rfl⟩

/-- C10: away from end of input, `Eof` fails but also consumes one byte
(its `next` call uses an always-true predicate): the position advances
by one, the line counter increments exactly when the consumed byte is a
line feed, and as a consequence `Either(Eof, p2)` propagates `Eof`'s
failure without ever trying `p2`. -/
theorem eof_consumes (st : ParseState) (h : st.pos < st.source.length) :
    (∃ e, (Eof st).1 = Except.error e) ∧
    (Eof st).2.pos = st.pos + 1 ∧
    ((Eof st).2.line = if st.source.get ⟨st.pos, h⟩ = 10 then st.line + 1 else st.line) ∧
    ∀ p2, Either Eof p2 st = Eof st := by
  have hnext : st.next (fun _ => true) =
      (st.source.get ⟨st.pos, h⟩, true,
       { st with pos := st.pos + 1,
                 line := if st.source.get ⟨st.pos, h⟩ = 10 then st.line + 1 else st.line }) := by
    unfold ParseState.next
    rw [dif_pos h]
    rfl
  have hEof : Eof st =
      (Except.error
        (ParseState.trap
          { st with pos := st.pos + 1,
                    line := if st.source.get ⟨st.pos, h⟩ = 10 then st.line + 1 else st.line }
          ("Expected end of file but got " ++ quoted (chr (st.source.get ⟨st.pos, h⟩)))),
       { st with pos := st.pos + 1,
                 line := if st.source.get ⟨st.pos, h⟩ = 10 then st.line + 1 else st.line }) := by
    unfold Eof
    rw [hnext]
    rfl
  refine ⟨⟨_, by rw [hEof]⟩, by rw [hEof], by rw [hEof], fun p2 => ?_⟩
  rw [Either_run_err_move hEof (by simp), hEof]

/-- Witness for C10: on input "\n" at position 0 the cursor moves to 1,
the line counter moves to 2, and the right branch of `Either` is never
reached. -/
theorem eof_consumes_w :
    (∃ e, (Eof ⟨[10], 0, 1⟩).1 = Except.error e) ∧
    (Eof ⟨[10], 0, 1⟩).2.pos = 0 + 1 ∧
    ((Eof ⟨[10], 0, 1⟩).2.line =
      if (⟨[10], 0, 1⟩ : ParseState).source.get ⟨0, by decide⟩ = 10 then 1 + 1 else 1) ∧
    ∀ p2, Either Eof p2 ⟨[10], 0, 1⟩ = Eof ⟨[10], 0, 1⟩ :=
  eof_consumes ⟨[10], 0, 1⟩ (by decide)

/-- How one `next` step behaves: either it matched, and the position
advanced by exactly one with the source unchanged, or it did not match
and the state is unchanged. -/
theorem next_spec (st : ParseState) (pred : Nat → Bool) :
    ((st.next pred).2.1 = true ∧ (st.next pred).2.2.pos = st.pos + 1 ∧
      (st.next pred).2.2.source = st.source) ∨
    ((st.next pred).2.1 = false ∧ (st.next pred).2.2 = st) := by
  unfold ParseState.next
  split
  · dsimp only
    split
    · right
      simp
    · left
      simp
  · right
    simp

/-- When the byte-matching loop of `String` matches all of `s`, the
position has advanced by exactly the length of `s`. -/
theorem stringLoop_pos (s : List Nat) : ∀ st : ParseState,
    (stringLoop s st).1 = true → (stringLoop s st).2.pos = st.pos + s.length := by
  induction s with
  | nil =>
    intro st _
    rfl
  | cons c cs ih =>
    intro st h
    rcases next_spec st (fun b => b == c) with ⟨ht, hpos, _⟩ | ⟨hf, _⟩
    · simp only [stringLoop, ht, if_true] at h ⊢
      rw [ih _ h, hpos]
      simp only [List.length_cons]
      omega
    · simp [stringLoop, hf] at h

/-- C6: for every byte string `s` and every state, `String(s)` either
succeeds returning `s` with the position advanced by exactly the length
of `s`, or fails reporting the expected string with the position equal
to its pre-call value (net zero consumption). -/
theorem string_atomic (s : List Nat) (st : ParseState) :
    ((Parsec.String s st).1 = Except.ok (Value.vstr s) ∧
     (Parsec.String s st).2.pos = st.pos + s.length) ∨
    ((∃ ln, (Parsec.String s st).1 =
        Except.error ⟨"Expected " ++ quoted (bytesToString s), ln⟩) ∧
     (Parsec.String s st).2.pos = st.pos) := by
  have hp := stringLoop_pos s st
  rcases hsl : stringLoop s st with ⟨ok, st1⟩
  rw [hsl] at hp
  unfold String
  cases ok with
  | false =>
    right
    simp only [hsl, if_false]
    exact ⟨⟨st1.line, rfl⟩, rfl⟩
  | true =>
    left
    simp only [hsl, if_true]
    exact ⟨by simp, hp rfl⟩

/-- `ManyTil(AnyChar, String "STOP")` on "abcSTOP" seen from offset 3:
the terminator matches, so the accumulated sequence is empty and the
terminator's consumption is committed, leaving the cursor at 7.  Stated
for every fuel value. -/
theorem manytil_stop_at3 (n : Nat) :
    ManyTilF (n + 1) AnyChar (Parsec.String [83, 84, 79, 80])
        ⟨[97, 98, 99, 83, 84, 79, 80], 3, 1⟩ =
      (Except.ok (Value.vlist []), ⟨[97, 98, 99, 83, 84, 79, 80], 7, 1⟩) := by
  show Either (Bind_ (Try (Parsec.String [83, 84, 79, 80])) (Return (Value.vlist [])))
      (Bind AnyChar fun x => Bind (ManyTilF n AnyChar (Parsec.String [83, 84, 79, 80]))
        fun xs => Return (consV x xs)) ⟨[97, 98, 99, 83, 84, 79, 80], 3, 1⟩ = _
  exact Either_run_ok rfl

/-- `ManyTil(AnyChar, String "STOP")` on "abcSTOP" seen from offset 2:
the terminator does not match, one `AnyChar` is consumed and the
recursion continues from offset 3. -/
theorem manytil_stop_at2 (n : Nat) :
    ManyTilF (n + 2) AnyChar (Parsec.String [83, 84, 79, 80])
        ⟨[97, 98, 99, 83, 84, 79, 80], 2, 1⟩ =
      (Except.ok (Value.vlist [Value.vbyte 99]), ⟨[97, 98, 99, 83, 84, 79, 80], 7, 1⟩) := by
  have h3 := manytil_stop_at3 n
  have e1 : ManyTilF (n + 2) AnyChar (Parsec.String [83, 84, 79, 80])
        ⟨[97, 98, 99, 83, 84, 79, 80], 2, 1⟩
      = Bind AnyChar (fun x => Bind (ManyTilF (n + 1) AnyChar (Parsec.String [83, 84, 79, 80]))
          fun xs => Return (consV x xs)) ⟨[97, 98, 99, 83, 84, 79, 80], 2, 1⟩ :=
    Either_run_err_stay rfl rfl
  have e2 : Bind AnyChar (fun x => Bind (ManyTilF (n + 1) AnyChar (Parsec.String [83, 84, 79, 80]))
          fun xs => Return (consV x xs)) ⟨[97, 98, 99, 83, 84, 79, 80], 2, 1⟩
      = Bind (ManyTilF (n + 1) AnyChar (Parsec.String [83, 84, 79, 80]))
          (fun xs => Return (consV (Value.vbyte 99) xs)) ⟨[97, 98, 99, 83, 84, 79, 80], 3, 1⟩ :=
    Bind_run_ok rfl
  have e3 : Bind (ManyTilF (n + 1) AnyChar (Parsec.String [83, 84, 79, 80]))
          (fun xs => Return (consV (Value.vbyte 99) xs)) ⟨[97, 98, 99, 83, 84, 79, 80], 3, 1⟩
      = (Except.ok (Value.vlist [Value.vbyte 99]), ⟨[97, 98, 99, 83, 84, 79, 80], 7, 1⟩) := by
    rw [Bind_run_ok h3]
    rfl
  exact e1.trans (e2.trans e3)

/-- `ManyTil(AnyChar, String "STOP")` on "abcSTOP" seen from offset 1. -/
theorem manytil_stop_at1 (n : Nat) :
    ManyTilF (n + 3) AnyChar (Parsec.String [83, 84, 79, 80])
        ⟨[97, 98, 99, 83, 84, 79, 80], 1, 1⟩ =
      (Except.ok (Value.vlist [Value.vbyte 98, Value.vbyte 99]),
       ⟨[97, 98, 99, 83, 84, 79, 80], 7, 1⟩) := by
  have h2 := manytil_stop_at2 n
  have e1 : ManyTilF (n + 3) AnyChar (Parsec.String [83, 84, 79, 80])
        ⟨[97, 98, 99, 83, 84, 79, 80], 1, 1⟩
      = Bind AnyChar (fun x => Bind (ManyTilF (n + 2) AnyChar (Parsec.String [83, 84, 79, 80]))
          fun xs => Return (consV x xs)) ⟨[97, 98, 99, 83, 84, 79, 80], 1, 1⟩ :=
    Either_run_err_stay rfl rfl
  have e2 : Bind AnyChar (fun x => Bind (ManyTilF (n + 2) AnyChar (Parsec.String [83, 84, 79, 80]))
          fun xs => Return (consV x xs)) ⟨[97, 98, 99, 83, 84, 79, 80], 1, 1⟩
      = Bind (ManyTilF (n + 2) AnyChar (Parsec.String [83, 84, 79, 80]))
          (fun xs => Return (consV (Value.vbyte 98) xs)) ⟨[97, 98, 99, 83, 84, 79, 80], 2, 1⟩ :=
    Bind_run_ok rfl
  have e3 : Bind (ManyTilF (n + 2) AnyChar (Parsec.String [83, 84, 79, 80]))
          (fun xs => Return (consV (Value.vbyte 98) xs)) ⟨[97, 98, 99, 83, 84, 79, 80], 2, 1⟩
      = (Except.ok (Value.vlist [Value.vbyte 98, Value.vbyte 99]),
         ⟨[97, 98, 99, 83, 84, 79, 80], 7, 1⟩) := by
    rw [Bind_run_ok h2]
    rfl
  exact e1.trans (e2.trans e3)

/-- C8: for every fuel value large enough to cover the three elements
and the terminator, `ManyTil(AnyChar, String "STOP")` run on "abcSTOP"
(bytes [97,98,99,83,84,79,80]) from position 0 succeeds with the
sequence of bytes ['a','b','c'] and leaves the cursor at position 7,
immediately after "STOP": the terminator's consumption is committed. -/
theorem manytil_abcstop (n : Nat) :
    ManyTilF (n + 4) AnyChar (Parsec.String [83, 84, 79, 80])
        ⟨[97, 98, 99, 83, 84, 79, 80], 0, 1⟩ =
      (Except.ok (Value.vlist [Value.vbyte 97, Value.vbyte 98, Value.vbyte 99]),
       ⟨[97, 98, 99, 83, 84, 79, 80], 7, 1⟩) := by
  have h1 := manytil_stop_at1 n
  have e1 : ManyTilF (n + 4) AnyChar (Parsec.String [83, 84, 79, 80])
        ⟨[97, 98, 99, 83, 84, 79, 80], 0, 1⟩
      = Bind AnyChar (fun x => Bind (ManyTilF (n + 3) AnyChar (Parsec.String [83, 84, 79, 80]))
          fun xs => Return (consV x xs)) ⟨[97, 98, 99, 83, 84, 79, 80], 0, 1⟩ :=
    Either_run_err_stay rfl rfl
  have e2 : Bind AnyChar (fun x => Bind (ManyTilF (n + 3) AnyChar (Parsec.String [83, 84, 79, 80]))
          fun xs => Return (consV x xs)) ⟨[97, 98, 99, 83, 84, 79, 80], 0, 1⟩
      = Bind (ManyTilF (n + 3) AnyChar (Parsec.String [83, 84, 79, 80]))
          (fun xs => Return (consV (Value.vbyte 97) xs)) ⟨[97, 98, 99, 83, 84, 79, 80], 1, 1⟩ :=
    Bind_run_ok rfl
  have e3 : Bind (ManyTilF (n + 3) AnyChar (Parsec.String [83, 84, 79, 80]))
          (fun xs => Return (consV (Value.vbyte 97) xs)) ⟨[97, 98, 99, 83, 84, 79, 80], 1, 1⟩
      = (Except.ok (Value.vlist [Value.vbyte 97, Value.vbyte 98, Value.vbyte 99]),
         ⟨[97, 98, 99, 83, 84, 79, 80], 7, 1⟩) := by
    rw [Bind_run_ok h1]
    rfl
  exact e1.trans (e2.trans e3)

/-- Witness for C8 at the smallest sufficient fuel value. -/
theorem manytil_abcstop_w :
    ManyTilF 4 AnyChar (Parsec.String [83, 84, 79, 80])
        ⟨[97, 98, 99, 83, 84, 79, 80], 0, 1⟩ =
      (Except.ok (Value.vlist [Value.vbyte 97, Value.vbyte 98, Value.vbyte 99]),
       ⟨[97, 98, 99, 83, 84, 79, 80], 7, 1⟩) :=
  manytil_abcstop 0

/-- Case analysis on a successful run of `Many`: either the inner
`Many1` failed with the position back at the start (yielding the empty
sequence), or the element parser succeeded once and the recursive `Many`
succeeded from there, the results being combined by `consV`. -/
theorem manyF_succ_cases (n : Nat) (q : Parser) (st st2 : ParseState) (w : Value)
    (h : ManyF (n + 1) q st = (Except.ok w, st2)) :
    (w = Value.vlist [] ∧ st2.pos = st.pos) ∨
    (∃ x w2 stq, q st = (Except.ok x, stq) ∧
      ManyF n q stq = (Except.ok w2, st2) ∧ w = consV x w2) := by
  rcases hq : q st with ⟨rq, stq⟩
  cases rq with
  | error e =>
    have h1 : Bind q (fun x => Bind (ManyF n q) fun xs => Return (consV x xs)) st
        = (Except.error e, stq) := Bind_run_err hq
    by_cases hpos : stq.pos = st.pos
    · have h2 : ManyF (n + 1) q st = (Except.ok (Value.vlist []), stq) := by
        show Either _ (Return (Value.vlist [])) st = _
        rw [Either_run_err_stay h1 hpos]
        rfl
      rw [h2] at h
      rw [Prod.mk.injEq] at h
      obtain ⟨hw, hst⟩ := h
      exact Or.inl ⟨(Except.ok.inj hw).symm, hst ▸ hpos⟩
    · have h2 : ManyF (n + 1) q st = (Except.error e, stq) := by
        show Either _ (Return (Value.vlist [])) st = _
        rw [Either_run_err_move h1 hpos]
      rw [h2] at h
      exact absurd h (by simp)
  | ok x =>
    rcases hm : ManyF n q stq with ⟨rm, stm⟩
    cases rm with
    | error e2 =>
      have h1 : Bind q (fun y => Bind (ManyF n q) fun xs => Return (consV y xs)) st
          = (Except.error e2, stm) := by
        rw [Bind_run_ok hq]
        exact Bind_run_err hm
      by_cases hpos : stm.pos = st.pos
      · have h2 : ManyF (n + 1) q st = (Except.ok (Value.vlist []), stm) := by
          show Either _ (Return (Value.vlist [])) st = _
          rw [Either_run_err_stay h1 hpos]
          rfl
        rw [h2] at h
        rw [Prod.mk.injEq] at h
        obtain ⟨hw, hst⟩ := h
        exact Or.inl ⟨(Except.ok.inj hw).symm, hst ▸ hpos⟩
      · have h2 : ManyF (n + 1) q st = (Except.error e2, stm) := by
          show Either _ (Return (Value.vlist [])) st = _
          rw [Either_run_err_move h1 hpos]
        rw [h2] at h
        exact absurd h (by simp)
    | ok w2 =>
      have h1 : Bind q (fun y => Bind (ManyF n q) fun xs => Return (consV y xs)) st
          = (Except.ok (consV x w2), stm) := by
        rw [Bind_run_ok hq, Bind_run_ok hm]
        rfl
      have h2 : ManyF (n + 1) q st = (Except.ok (consV x w2), stm) := by
        show Either _ (Return (Value.vlist [])) st = _
        rw [Either_run_ok h1]
      rw [h2] at h
      rw [Prod.mk.injEq] at h
      obtain ⟨hw, hst⟩ := h
      exact Or.inr ⟨x, w2, stq, rfl, hst ▸ hm, (Except.ok.inj hw).symm⟩

/-- A successful run of `Many(Bind_(sep, p))` always yields a list
value, and its run decomposes as that many rounds of one `sep` success
followed by one `p` success, with the final position equal to the
position reached by the last `p` (or the start position when the list is
empty). -/
theorem manyF_sep_tail (p sep : Parser) :
    ∀ (n : Nat) (st st2 : ParseState) (w : Value),
      ManyF n (Bind_ sep p) st = (Except.ok w, st2) →
      ∃ xs stl, w = Value.vlist xs ∧ SepTail p sep st xs stl ∧ st2.pos = stl.pos := by
  intro n
  induction n with
  | zero =>
    intro st st2 w h
    exact absurd h (by simp [ManyF])
  | succ n ih =>
    intro st st2 w h
    rcases manyF_succ_cases n (Bind_ sep p) st st2 w h with
      ⟨hw, hpos⟩ | ⟨x, w2, stq, hq, hm, hw⟩
    · exact ⟨[], st, hw, SepTail.nil st, hpos⟩
    · rcases ih stq st2 w2 hm with ⟨xs2, stl, hw2, htail, hpos⟩
      subst hw2
      rcases hsep : sep st with ⟨rs, stm⟩
      cases rs with
      | error e =>
        rw [bindSeq_run_err hsep] at hq
        exact absurd hq (by simp)
      | ok v =>
        rw [bindSeq_run_ok hsep] at hq
        exact ⟨x :: xs2, stl, by rw [hw]; rfl,
          SepTail.cons st stm stq stl v x xs2 hsep hq htail, hpos⟩

/-- C9: whenever `SepBy1(p, sep)` succeeds with a sequence of length k,
its run decomposes as one `p` success producing the first element
followed by exactly k − 1 rounds of one `sep` success and one `p`
success, the separators interleaved strictly between consecutive
elements, and the final position equals the position reached by the last
element's `p` — no trailing separator consumption.  The witness
instantiates this at input "1,2,3" with digit separated by comma, whose
result is ['1','2','3']. -/
theorem sepby1_separators (n : Nat) (p sep : Parser) (st st2 : ParseState) (l : List Value)
    (h : SepBy1F n p sep st = (Except.ok (Value.vlist l), st2)) :
    ∃ x xs st1 stl, l = x :: xs ∧ p st = (Except.ok x, st1) ∧
      SepTail p sep st1 xs stl ∧ st2.pos = stl.pos := by
  rcases hp : p st with ⟨rp, st1⟩
  cases rp with
  | error e =>
    have hb : SepBy1F n p sep st = (Except.error e, st1) := Bind_run_err hp
    rw [hb] at h
    exact absurd h (by simp)
  | ok x =>
    rcases hm : ManyF n (Bind_ sep p) st1 with ⟨rm, stm⟩
    cases rm with
    | error e2 =>
      have hb : SepBy1F n p sep st = (Except.error e2, stm) := by
        show Bind p _ st = _
        rw [Bind_run_ok hp]
        exact Bind_run_err hm
      rw [hb] at h
      exact absurd h (by simp)
    | ok w =>
      have hb : SepBy1F n p sep st = (Except.ok (consV x w), stm) := by
        show Bind p _ st = _
        rw [Bind_run_ok hp, Bind_run_ok hm]
        rfl
      rw [hb] at h
      rw [Prod.mk.injEq] at h
      obtain ⟨hw, hst⟩ := h
      rcases manyF_sep_tail p sep n st1 st2 w (hst ▸ hm) with ⟨xs, stl, hwl, htail, hpos⟩
      subst hwl
      have h5 := Except.ok.inj hw
      simp only [consV] at h5
      have hlx : l = x :: xs := (Value.vlist.inj h5).symm
      exact ⟨x, xs, st1, stl, hlx, rfl, htail, hpos⟩

/-- Witness for C9: parsing "1,2,3" (bytes [49,44,50,44,51]) with digit
separated by comma succeeds with ['1','2','3'], ending at position 5,
and decomposes into one digit followed by two comma-digit rounds. -/
theorem sepby1_separators_w :
    ∃ x xs st1 stl,
      [Value.vbyte 49, Value.vbyte 50, Value.vbyte 51] = x :: xs ∧
      Digit ⟨[49, 44, 50, 44, 51], 0, 1⟩ = (Except.ok x, st1) ∧
      SepTail Digit (Char 44) st1 xs stl ∧
      (⟨[49, 44, 50, 44, 51], 5, 1⟩ : ParseState).pos = stl.pos :=
  sepby1_separators 10 Digit (Char 44) ⟨[49, 44, 50, 44, 51], 0, 1⟩
    ⟨[49, 44, 50, 44, 51], 5, 1⟩ [Value.vbyte 49, Value.vbyte 50, Value.vbyte 51] rfl

end Parsec
